import Mathlib

/- Verification of the rapido core (src/core/src): the store view and
   staging cache (store.rs), the signed transaction record with its Borsh
   wire format and signing digest (types.rs), and the node harness with
   its module registry, transaction pipeline, genesis initialisation,
   commit protocol and query-path parser (lib.rs).  Rust machine integers
   are modelled as Nat with explicit truncation where overflow matters;
   byte strings are lists of Nat; the HashMap staging cache is modelled
   extensionally as a function from digests to optional entries. -/

namespace Rapido

/-- Raw byte strings (Vec<u8> in the source). -/
abbrev Bytes := List Nat

/-- Content-addressed keys: exonum_crypto::Hash values (32-byte digests). -/
abbrev Digest := List Nat

/-- store.rs ViewChange: a pending change to the store, Add(bytes) or Remove. -/
inductive ViewChange where
  | Add (v : Bytes)
  | Remove
deriving DecidableEq

/-- store.rs ViewChange::get: extract the value, none for Remove. -/
def ViewChange.get : ViewChange → Option Bytes
  | .Add v => some v
  | .Remove => none

/-- store.rs Cache = HashMap<Hash, ViewChange>, modelled extensionally. -/
abbrev Cache := Digest → Option ViewChange

/-- Default::default() for the cache: the empty map. -/
def emptyCache : Cache := fun _ => none

/-- HashMap::insert: overwrite the entry at one key. -/
def Cache.insert (c : Cache) (k : Digest) (v : ViewChange) : Cache :=
  fun q => if q = k then some v else c q

/-- store.rs StoreView: a staging cache over a database snapshot.  The
    snapshot handle is modelled by the map the snapshot's
    rapido.core.map proof-map index holds. -/
structure StoreView where
  cache : Cache
  snap : Digest → Option Bytes

/-- store.rs StoreView::exists (Lean forbids the source name itself):
    self.cache.contains_key(&key). -/
def StoreView.existsKey (v : StoreView) (k : Digest) : Bool :=
  (v.cache k).isSome

/-- store.rs StoreView::get: if the cache has an entry return its
    ViewChange::get, otherwise None (no snapshot fall-through). -/
def StoreView.get (v : StoreView) (k : Digest) : Option Bytes :=
  match v.cache k with
  | some cv => cv.get
  | none => none

/-- store.rs StoreView::get_from_store: read the snapshot's proof map. -/
def StoreView.get_from_store (v : StoreView) (k : Digest) : Option Bytes :=
  v.snap k

/-- store.rs StoreView::put: insert an Add entry into the cache. -/
def StoreView.put (v : StoreView) (k : Digest) (value : Bytes) : StoreView :=
  { v with cache := v.cache.insert k (ViewChange.Add value) }

/-- store.rs StoreView::remove: insert a Remove entry into the cache. -/
def StoreView.remove (v : StoreView) (k : Digest) : StoreView :=
  { v with cache := v.cache.insert k ViewChange.Remove }

/-- store.rs StoreView::commit applied to a map: each Add entry is put,
    each Remove entry removed; keys without a cache entry are untouched.
    (The source iterates the HashMap; as the keys are distinct the
    resulting map is iteration-order independent and is this function.) -/
def applyCache (c : Cache) (m : Digest → Option Bytes) : Digest → Option Bytes :=
  fun k =>
    match c k with
    | some (ViewChange.Add v) => some v
    | some ViewChange.Remove => none
    | none => m k

/-- Little-endian byte encoding, k bytes (u32/u64::to_le_bytes). -/
def leBytes : Nat → Nat → Bytes
  | 0, _ => []
  | k + 1, n => n % 256 :: leBytes k (n / 256)

/-- Little-endian byte decoding (u32/u64::from_le_bytes). -/
def leValue : Bytes → Nat
  | [] => 0
  | b :: r => b + 256 * leValue r

/-- store.rs StoreKey { prefix, key } Borsh-serialized: Borsh of the
    prefix String (u32 LE length, then UTF-8 bytes) followed by the
    Borsh encoding of the key (given here already encoded). -/
def storeKeyBytes (storeName keyBytes : Bytes) : Bytes :=
  leBytes 4 storeName.length ++ storeName ++ keyBytes

/-- store.rs StoreKey::hash: exonum_crypto::hash of the Borsh bytes.
    The hash function is a parameter of the model. -/
def storeKeyHash (H : Bytes → Digest) (storeName keyBytes : Bytes) : Digest :=
  H (storeKeyBytes storeName keyBytes)

/-- store.rs Store::contains_key: hash the prefixed key and probe the
    view's cache through StoreView::exists. -/
def Store.contains_key (H : Bytes → Digest) (storeName keyBytes : Bytes)
    (v : StoreView) : Bool :=
  v.existsKey (storeKeyHash H storeName keyBytes)

/- Concrete inputs for the store-view claims. -/

/-- A view whose cache maps digest [5] to Remove, over an empty snapshot. -/
def viewRemove : StoreView :=
  { cache := Cache.insert emptyCache [5] ViewChange.Remove, snap := fun _ => none }

/-- A view with an empty cache over a snapshot holding [7] at digest [5]. -/
def viewSnapOnly : StoreView :=
  { cache := emptyCache, snap := fun k => if k = [5] then some [7] else none }

/-- A view whose cache maps digest [1] to Add [2]. -/
def viewAddOne : StoreView :=
  { cache := Cache.insert emptyCache [1] (ViewChange.Add [2]), snap := fun _ => none }

/-- Claim C3 (counterexample): the existence probe on a key the cache
    maps to a Remove entry returns true, not false as the claim states,
    so exists is not equivalent to the cache holding a Put entry. -/
theorem exists_probe_counterexample :
    viewRemove.cache [5] = some ViewChange.Remove
    ∧ viewRemove.existsKey [5] = true
    ∧ ¬ (viewRemove.existsKey [5] = true
          ↔ ∃ val, viewRemove.cache [5] = some (ViewChange.Add val)) := by
  refine ⟨rfl, rfl, fun h => ?_⟩
  rcases h.mp rfl with ⟨val, hval⟩
  simp [viewRemove, Cache.insert, emptyCache] at hval

/-- Claim C3 (amended): for every digest key, the view's existence probe
    (and the typed store's contains_key built on it) returns true iff the
    staging cache holds any entry for that key, Put or Remove alike; in
    particular a Remove entry also yields true. -/
theorem exists_probe_amended (v : StoreView) (k : Digest) :
    (v.existsKey k = true ↔ ∃ ch, v.cache k = some ch)
    ∧ (v.cache k = some ViewChange.Remove → v.existsKey k = true)
    ∧ (∀ (H : Bytes → Digest) (storeName keyBytes : Bytes),
        Store.contains_key H storeName keyBytes v
          = v.existsKey (storeKeyHash H storeName keyBytes)) := by
  refine ⟨?_, ?_, fun _ _ _ => rfl⟩
  · simp [StoreView.existsKey, Option.isSome_iff_exists]
  · intro h
    simp [StoreView.existsKey, h]

/-- Claim C3 (witness): the amended iff applied at the Remove view. -/
theorem exists_probe_witness : viewRemove.existsKey [5] = true :=
  (exists_probe_amended viewRemove [5]).1.mpr ⟨ViewChange.Remove, rfl⟩

/-- Claim C4 (counterexample): with an empty cache and a snapshot holding
    [7] at digest [5], StoreView::get returns none: it does not fall
    through to the snapshot as the claim states. -/
theorem view_get_counterexample :
    viewSnapOnly.cache [5] = none
    ∧ viewSnapOnly.snap [5] = some [7]
    ∧ viewSnapOnly.get [5] = none
    ∧ viewSnapOnly.get [5] ≠ viewSnapOnly.snap [5] := by
  refine ⟨rfl, rfl, rfl, ?_⟩
  intro h
  simp [viewSnapOnly, StoreView.get, emptyCache] at h

/-- Claim C4 (amended): StoreView::get returns the cached value on a Put
    entry, none on a Remove entry, and none when the cache has no entry;
    it never consults the snapshot (the snapshot is read only through the
    separate get_from_store, used by the typed store). -/
theorem view_get_amended (v : StoreView) (k : Digest) :
    (∀ val, v.cache k = some (ViewChange.Add val) → v.get k = some val)
    ∧ (v.cache k = some ViewChange.Remove → v.get k = none)
    ∧ (v.cache k = none → v.get k = none)
    ∧ (∀ snap2, StoreView.get { cache := v.cache, snap := snap2 } k = v.get k) := by
  refine ⟨?_, ?_, ?_, fun snap2 => rfl⟩
  · intro val h
    simp [StoreView.get, h, ViewChange.get]
  · intro h
    simp [StoreView.get, h, ViewChange.get]
  · intro h
    simp [StoreView.get, h]

/-- Claim C4 (witness): the amended Put case applied at a concrete view. -/
theorem view_get_witness : viewAddOne.get [1] = some [2] :=
  (view_get_amended viewAddOne [1]).1 [2] rfl

/- Transaction record (types.rs SignedTransaction).  The module name is a
   Rust String; it is modelled by its UTF-8 byte string, which Borsh
   writes on the wire and the digest hashes.  The nonce is a u64. -/

/-- types.rs SignedTransaction: sender, app (module-name UTF-8 bytes),
    msg payload, u64 nonce, detached signature. -/
structure SignedTransaction where
  sender : Bytes
  app : Bytes
  msg : Bytes
  nonce : Nat
  signature : Bytes
deriving DecidableEq

/-- types.rs SignedTransaction::hash contents: the four canonical fields
    flattened in order sender, appname bytes, msg, nonce little-endian
    (vec![..].into_iter().flatten().collect()). -/
def SignedTransaction.hashContents (tx : SignedTransaction) : Bytes :=
  List.flatten [tx.sender, tx.app, tx.msg, leBytes 8 tx.nonce]

/-- types.rs SignedTransaction::hash: exonum_crypto::hash of the
    contents; the hash function is a parameter of the model. -/
def SignedTransaction.hash (H : Bytes → Digest) (tx : SignedTransaction) : Digest :=
  H tx.hashContents

/-- Borsh serialization of a Vec<u8> (or of a String's UTF-8 bytes):
    u32 little-endian length prefix, then the bytes. -/
def encodeVec (v : Bytes) : Bytes :=
  leBytes 4 v.length ++ v

/-- types.rs SignedTransaction::encode: Borsh struct serialization, the
    five fields in declaration order. -/
def SignedTransaction.encode (tx : SignedTransaction) : Bytes :=
  encodeVec tx.sender ++ encodeVec tx.app ++ encodeVec tx.msg
    ++ leBytes 8 tx.nonce ++ encodeVec tx.signature

/-- Borsh reader: consume exactly n bytes or fail. -/
def readN (n : Nat) (l : Bytes) : Option (Bytes × Bytes) :=
  if l.length < n then none else some (l.take n, l.drop n)

/-- Borsh reader for Vec<u8>: u32 little-endian length, then the bytes. -/
def readVec (l : Bytes) : Option (Bytes × Bytes) :=
  match readN 4 l with
  | none => none
  | some (lenB, r) => readN (leValue lenB) r

/-- Rust core::str::from_utf8 validity check, applied by Borsh when
    deserializing the String field (surrogates and overlong forms are
    rejected, exactly as in the Rust standard library). -/
def validUtf8 : Bytes → Bool
  | [] => true
  | b :: r =>
    if b ≤ 0x7F then validUtf8 r
    else if 0xC2 ≤ b ∧ b ≤ 0xDF then
      match r with
      | b1 :: r1 => decide (0x80 ≤ b1 ∧ b1 ≤ 0xBF) && validUtf8 r1
      | [] => false
    else if b = 0xE0 then
      match r with
      | b1 :: b2 :: r2 =>
        decide (0xA0 ≤ b1 ∧ b1 ≤ 0xBF) && decide (0x80 ≤ b2 ∧ b2 ≤ 0xBF) && validUtf8 r2
      | _ => false
    else if (0xE1 ≤ b ∧ b ≤ 0xEC) ∨ (0xEE ≤ b ∧ b ≤ 0xEF) then
      match r with
      | b1 :: b2 :: r2 =>
        decide (0x80 ≤ b1 ∧ b1 ≤ 0xBF) && decide (0x80 ≤ b2 ∧ b2 ≤ 0xBF) && validUtf8 r2
      | _ => false
    else if b = 0xED then
      match r with
      | b1 :: b2 :: r2 =>
        decide (0x80 ≤ b1 ∧ b1 ≤ 0x9F) && decide (0x80 ≤ b2 ∧ b2 ≤ 0xBF) && validUtf8 r2
      | _ => false
    else if b = 0xF0 then
      match r with
      | b1 :: b2 :: b3 :: r3 =>
        decide (0x90 ≤ b1 ∧ b1 ≤ 0xBF) && decide (0x80 ≤ b2 ∧ b2 ≤ 0xBF)
          && decide (0x80 ≤ b3 ∧ b3 ≤ 0xBF) && validUtf8 r3
      | _ => false
    else if 0xF1 ≤ b ∧ b ≤ 0xF3 then
      match r with
      | b1 :: b2 :: b3 :: r3 =>
        decide (0x80 ≤ b1 ∧ b1 ≤ 0xBF) && decide (0x80 ≤ b2 ∧ b2 ≤ 0xBF)
          && decide (0x80 ≤ b3 ∧ b3 ≤ 0xBF) && validUtf8 r3
      | _ => false
    else if b = 0xF4 then
      match r with
      | b1 :: b2 :: b3 :: r3 =>
        decide (0x80 ≤ b1 ∧ b1 ≤ 0x8F) && decide (0x80 ≤ b2 ∧ b2 ≤ 0xBF)
          && decide (0x80 ≤ b3 ∧ b3 ≤ 0xBF) && validUtf8 r3
      | _ => false
    else false

/-- types.rs SignedTransaction::decode: Borsh try_from_slice, the five
    fields in order with a UTF-8 check on the String field, failing on
    truncated input and on trailing bytes. -/
def SignedTransaction.decode (raw : Bytes) : Option SignedTransaction :=
  match readVec raw with
  | none => none
  | some (sender, r1) =>
    match readVec r1 with
    | none => none
    | some (app, r2) =>
      if validUtf8 app then
        match readVec r2 with
        | none => none
        | some (msg, r3) =>
          match readN 8 r3 with
          | none => none
          | some (nonceB, r4) =>
            match readVec r4 with
            | none => none
            | some (sig, r5) =>
              if r5 = [] then
                some { sender := sender, app := app, msg := msg,
                       nonce := leValue nonceB, signature := sig }
              else none
      else none

/-- Claim C6: the signing digest is computed over exactly sender, module
    name UTF-8 bytes, payload, and little-endian u64 nonce, concatenated
    in that order, and it ignores the signature: changing only the
    signature leaves the digest unchanged. -/
theorem signing_digest_spec (H : Bytes → Digest) (tx : SignedTransaction) :
    SignedTransaction.hash H tx
        = H (tx.sender ++ tx.app ++ tx.msg ++ leBytes 8 tx.nonce)
    ∧ (∀ sig2 : Bytes,
        SignedTransaction.hash H { tx with signature := sig2 }
          = SignedTransaction.hash H tx) := by
  constructor
  · simp [SignedTransaction.hash, SignedTransaction.hashContents]
  · intro sig2
    rfl

/- Round-trip lemmas for the Borsh wire format. -/

theorem leBytes_length (k n : Nat) : (leBytes k n).length = k := by
  induction k generalizing n with
  | zero => rfl
  | succ k ih => simp [leBytes, ih]

theorem leValue_leBytes (k n : Nat) : leValue (leBytes k n) = n % 256 ^ k := by
  induction k generalizing n with
  | zero => simp [leBytes, leValue, Nat.mod_one]
  | succ k ih =>
    rw [leBytes, leValue, ih, pow_succ, mul_comm (256 ^ k) 256, Nat.mod_mul]

theorem readN_append (l r : Bytes) : readN l.length (l ++ r) = some (l, r) := by
  unfold readN
  rw [if_neg (by simp)]
  simp

theorem readN_of_length (n : Nat) (l r : Bytes) (h : l.length = n) :
    readN n (l ++ r) = some (l, r) := by
  subst h
  exact readN_append l r

theorem readVec_encodeVec (v r : Bytes) (h : v.length < 2 ^ 32) :
    readVec (encodeVec v ++ r) = some (v, r) := by
  have h4 : (leBytes 4 v.length).length = 4 := leBytes_length 4 v.length
  have h1 : readN 4 (encodeVec v ++ r) = some (leBytes 4 v.length, v ++ r) := by
    rw [encodeVec, List.append_assoc]
    exact readN_of_length 4 _ _ h4
  have h2 : leValue (leBytes 4 v.length) = v.length := by
    rw [leValue_leBytes]
    have h32 : (256 : Nat) ^ 4 = 2 ^ 32 := by norm_num
    rw [h32, Nat.mod_eq_of_lt h]
  unfold readVec
  rw [h1]
  show readN (leValue (leBytes 4 v.length)) (v ++ r) = some (v, r)
  rw [h2, readN_append]

/-- Claim C9: decoding the bytes produced by encoding a transaction
    succeeds and returns a transaction equal to it in all five fields.
    The hypotheses state that the value is a well-formed Rust value: the
    module name is valid UTF-8 (every Rust String is), the byte fields
    fit a u32 length prefix and the nonce fits a u64. -/
theorem decode_encode_roundtrip (tx : SignedTransaction)
    (hutf : validUtf8 tx.app = true)
    (hs : tx.sender.length < 2 ^ 32) (ha : tx.app.length < 2 ^ 32)
    (hm : tx.msg.length < 2 ^ 32) (hsig : tx.signature.length < 2 ^ 32)
    (hn : tx.nonce < 2 ^ 64) :
    SignedTransaction.decode (SignedTransaction.encode tx) = some tx := by
  have hassoc : SignedTransaction.encode tx
      = encodeVec tx.sender ++ (encodeVec tx.app ++ (encodeVec tx.msg
          ++ (leBytes 8 tx.nonce ++ encodeVec tx.signature))) := by
    simp [SignedTransaction.encode, List.append_assoc]
  have e1 := readVec_encodeVec tx.sender
    (encodeVec tx.app ++ (encodeVec tx.msg
      ++ (leBytes 8 tx.nonce ++ encodeVec tx.signature))) hs
  have e2 := readVec_encodeVec tx.app
    (encodeVec tx.msg ++ (leBytes 8 tx.nonce ++ encodeVec tx.signature)) ha
  have e3 := readVec_encodeVec tx.msg
    (leBytes 8 tx.nonce ++ encodeVec tx.signature) hm
  have e4 : readN 8 (leBytes 8 tx.nonce ++ encodeVec tx.signature)
      = some (leBytes 8 tx.nonce, encodeVec tx.signature) :=
    readN_of_length 8 _ _ (leBytes_length 8 tx.nonce)
  have e5 : readVec (encodeVec tx.signature) = some (tx.signature, []) := by
    have h0 := readVec_encodeVec tx.signature [] hsig
    rwa [List.append_nil] at h0
  have e6 : leValue (leBytes 8 tx.nonce) = tx.nonce := by
    rw [leValue_leBytes]
    have h64 : (256 : Nat) ^ 8 = 2 ^ 64 := by norm_num
    rw [h64, Nat.mod_eq_of_lt hn]
  rw [hassoc]
  simp [SignedTransaction.decode, e1, e2, e3, e4, e5, e6, hutf]

/-- A concrete transaction for the round-trip witness. -/
def txRt : SignedTransaction :=
  { sender := [1], app := [97], msg := [2, 3], nonce := 5, signature := [9] }

/-- Claim C9 (witness): the round-trip theorem applied at txRt. -/
theorem decode_encode_roundtrip_witness :
    SignedTransaction.decode (SignedTransaction.encode txRt) = some txRt :=
  decode_encode_roundtrip txRt (by decide) (by decide) (by decide)
    (by decide) (by decide) (by decide)

/- The node harness (lib.rs). -/

/-- types.rs Context: sender, encoded msg and module name copied from
    the transaction (the event buffer lives behind a RefCell and is
    modelled by the event list handlers return). -/
structure Context where
  sender : Bytes
  msg : Bytes
  appname : Bytes

/-- types.rs SignedTransaction::into_context. -/
def SignedTransaction.into_context (tx : SignedTransaction) : Context :=
  { sender := tx.sender, msg := tx.msg, appname := tx.app }

/-- An abci Event: a type string and key/value attribute pairs. -/
abbrev Event := String × List (Bytes × Bytes)

/-- types.rs AppModule: route name plus the initialize and handle_tx
    hooks.  A hook takes the view by mutable reference and returns a
    Result; it is modelled as returning the result together with the
    mutated view (and, for handle_tx, the events pushed into the
    context), so mutations made before an error are kept, exactly as a
    Rust &mut borrow keeps them. -/
structure AppModule where
  name : Bytes
  initGenesis : StoreView → Except String Unit × StoreView
  handle_tx : Context → StoreView → Except String Unit × StoreView × List Event

/-- types.rs Authenticator: validate reads the view immutably;
    increment_nonce takes it by mutable reference. -/
structure Authenticator where
  validate : SignedTransaction → StoreView → Except String Unit
  increment_nonce : SignedTransaction → StoreView → Except String Unit × StoreView

/-- lib.rs DefaultAuthenticator: validate accepts everything; the trait
    default increment_nonce is a no-op returning Ok. -/
def DefaultAuthenticator : Authenticator :=
  { validate := fun _ _ => Except.ok ()
    increment_nonce := fun _ v => (Except.ok (), v) }

/-- schema.rs ChainState { height: i64, apphash }. -/
structure ChainState where
  height : Int
  apphash : Bytes
deriving DecidableEq

/-- ChainState's Default: height 0, empty apphash. -/
def ChainState.default : ChainState := { height := 0, apphash := [] }

/-- The backing database: the rapido.core.map merkelized map and the
    rapido.app.state entry (two separate columns). -/
structure Db where
  coreMap : Digest → Option Bytes
  chainState : Option ChainState

/-- lib.rs Node: database handle, route map, authenticator and the two
    staging caches held behind Option (take()/replace()). -/
structure Node where
  db : Db
  appmodules : List (Bytes × AppModule)
  authenticator : Authenticator
  check_cache : Option Cache
  deliver_cache : Option Cache

/-- lib.rs RESERVED_APP_NAME = "rapido", as UTF-8 bytes. -/
def RESERVED_APP_NAME : Bytes := [114, 97, 112, 105, 100, 111]

/-- HashMap::get over the insertion-ordered route map: first matching
    entry (keys are unique by construction). -/
def lookupRoute : List (Bytes × AppModule) → Bytes → Option AppModule
  | [], _ => none
  | (n, a) :: rest, route => if n = route then some a else lookupRoute rest route

/-- lib.rs Node::new route-map loop: panic (modelled as none) on the
    reserved name, insert only when the route is not present yet. -/
def buildServiceMap : List AppModule → List (Bytes × AppModule)
    → Option (List (Bytes × AppModule))
  | [], acc => some acc
  | s :: rest, acc =>
    if s.name = RESERVED_APP_NAME then none
    else if (lookupRoute acc s.name).isSome then buildServiceMap rest acc
    else buildServiceMap rest (acc ++ [(s.name, s)])

/-- lib.rs Node::new: build the route map (none = panic on a reserved
    name), fall back to the DefaultAuthenticator, start with both caches
    present and empty. -/
def Node.new (db : Db) (mods : List AppModule) (auth : Option Authenticator) :
    Option Node :=
  match buildServiceMap mods [] with
  | none => none
  | some sm =>
    some { db := db
           appmodules := sm
           authenticator := match auth with | some a => a | none => DefaultAuthenticator
           check_cache := some emptyCache
           deliver_cache := some emptyCache }

/-- The distinct error sites of lib.rs Node::run_tx (anyhow messages). -/
inductive TxErr where
  | decodeFail
  | unknownModule (name : Bytes)
  | checkIncNonce
  | deliverIncNonce
  | validateFail (msg : String)
  | handlerFail (msg : String)

/-- Outcome of one run_tx call: Ok(events), Err, or a Rust panic
    (unwrap of an absent cache). -/
inductive RunOutcome where
  | ok (events : List Event) (node : Node)
  | err (e : TxErr) (node : Node)
  | panicked

/-- lib.rs Node::run_tx: decode, route lookup, then the check path
    (validate, then increment_nonce whose failure aborts via ensure!
    before the taken cache is put back) or the deliver path (handle_tx,
    then increment_nonce with the same ensure!, cache put back and the
    handler result returned).  The unwrap of a cache already taken and
    never restored is the panicked outcome. -/
def run_tx (is_check : Bool) (raw : Bytes) (node : Node) : RunOutcome :=
  match SignedTransaction.decode raw with
  | none => RunOutcome.err TxErr.decodeFail node
  | some tx =>
    match lookupRoute node.appmodules tx.app with
    | none => RunOutcome.err (TxErr.unknownModule tx.app) node
    | some app =>
      if is_check then
        match node.check_cache with
        | none => RunOutcome.panicked
        | some cc =>
          let view : StoreView := { cache := cc, snap := node.db.coreMap }
          let resp := node.authenticator.validate tx view
          match node.authenticator.increment_nonce tx view with
          | (Except.error _, _) =>
            RunOutcome.err TxErr.checkIncNonce { node with check_cache := none }
          | (Except.ok _, view2) =>
            let node2 : Node := { node with check_cache := some view2.cache }
            match resp with
            | Except.ok _ => RunOutcome.ok [] node2
            | Except.error m => RunOutcome.err (TxErr.validateFail m) node2
      else
        match node.deliver_cache with
        | none => RunOutcome.panicked
        | some dc =>
          let view : StoreView := { cache := dc, snap := node.db.coreMap }
          let ctx := tx.into_context
          match app.handle_tx ctx view with
          | (r, view2, events) =>
            match node.authenticator.increment_nonce tx view2 with
            | (Except.error _, _) =>
              RunOutcome.err TxErr.deliverIncNonce { node with deliver_cache := none }
            | (Except.ok _, view3) =>
              let node2 : Node := { node with deliver_cache := some view3.cache }
              match r with
              | Except.ok _ => RunOutcome.ok events node2
              | Except.error m => RunOutcome.err (TxErr.handlerFail m) node2

/-- lib.rs init_chain module loop: run each module's initialize on the
    shared view, panicking (none) as soon as one fails. -/
def runInits : List (Bytes × AppModule) → StoreView → Option StoreView
  | [], v => some v
  | (_, app) :: rest, v =>
    match app.initGenesis v with
    | (Except.error _, _) => none
    | (Except.ok _, v2) => runInits rest v2

/-- lib.rs init_chain: run the initializers over the deliver cache,
    commit the cache into a fork, merge the fork into the database and
    reset the deliver cache to empty.  The chain state is not written. -/
def Node.init_chain (node : Node) : Option Node :=
  match node.deliver_cache with
  | none => none
  | some dc =>
    match runInits node.appmodules { cache := dc, snap := node.db.coreMap } with
    | none => none
    | some v2 =>
      let fork : Db := { node.db with coreMap := applyCache v2.cache node.db.coreMap }
      some { node with db := fork, deliver_cache := some emptyCache }

/-- lib.rs Node::update_state: aggregator hash over the fork (the
    aggregator function is a model parameter), read the last chain
    state (Default when absent), save (height + 1, statehash) and
    return the new apphash. -/
def Node.update_state (agg : (Digest → Option Bytes) → Bytes) (fork : Db) :
    Bytes × Db :=
  let statehash := agg fork.coreMap
  let laststate := match fork.chainState with | some s => s | none => ChainState.default
  (statehash,
    { fork with chainState := some { height := laststate.height + 1, apphash := statehash } })

/-- lib.rs abci commit: take the deliver cache (unwrap: none = panic),
    commit it into a fork, update the chain state, merge the fork, reset
    both caches to empty and answer with the new apphash. -/
def Node.commit (agg : (Digest → Option Bytes) → Bytes) (node : Node) :
    Option (Bytes × Node) :=
  match node.deliver_cache with
  | none => none
  | some dc =>
    let fork : Db := { node.db with coreMap := applyCache dc node.db.coreMap }
    let res := Node.update_state agg fork
    some (res.1,
      { node with db := res.2
                  deliver_cache := some emptyCache
                  check_cache := some emptyCache })

/-- Rust str::find for a single character: index of first occurrence. -/
def findChar (c : Char) : List Char → Option Nat
  | [] => none
  | a :: l => if a = c then some 0 else (findChar c l).map (· + 1)

/-- lib.rs parse_abci_query_path: none on the empty path and on "/",
    (path, "/") when no slash occurs, otherwise split at the first
    slash provided its index is positive. -/
def parse_abci_query_path (req_path : List Char) : Option (List Char × List Char) :=
  if req_path.length = 0 then none
  else if req_path = ['/'] then none
  else if req_path.contains '/' = false then some (req_path, ['/'])
  else
    match findChar '/' req_path with
    | some index =>
      if 0 < index then some (req_path.take index, req_path.drop index) else none
    | none => none

/- Module registry (claim C7). -/

/-- First-of-two options, the assoc-list shadowing combinator. -/
def orFirst (a b : Option AppModule) : Option AppModule :=
  match a with
  | some x => some x
  | none => b

/-- Spec-side characterisation of first-come-wins: the first module in
    registration order carrying the given name. -/
def firstWithName : List AppModule → Bytes → Option AppModule
  | [], _ => none
  | m :: rest, n => if m.name = n then some m else firstWithName rest n

theorem lookupRoute_append (a b : List (Bytes × AppModule)) (n : Bytes) :
    lookupRoute (a ++ b) n = orFirst (lookupRoute a n) (lookupRoute b n) := by
  induction a with
  | nil => simp [lookupRoute, orFirst]
  | cons p rest ih =>
    obtain ⟨pn, pa⟩ := p
    by_cases h : pn = n
    · simp [lookupRoute, h, orFirst]
    · simp [lookupRoute, h, ih]

theorem buildServiceMap_none_iff (mods : List AppModule) :
    ∀ acc, buildServiceMap mods acc = none
      ↔ ∃ m ∈ mods, m.name = RESERVED_APP_NAME := by
  induction mods with
  | nil =>
    intro acc
    simp [buildServiceMap]
  | cons s rest ih =>
    intro acc
    have hrhs : (∃ m ∈ s :: rest, m.name = RESERVED_APP_NAME)
        ↔ (s.name = RESERVED_APP_NAME ∨ ∃ m ∈ rest, m.name = RESERVED_APP_NAME) := by
      constructor
      · rintro ⟨m, hm, hname⟩
        rcases List.mem_cons.mp hm with h1 | h1
        · exact Or.inl (h1 ▸ hname)
        · exact Or.inr ⟨m, h1, hname⟩
      · rintro (h1 | ⟨m, hm, hname⟩)
        · exact ⟨s, List.mem_cons_self s rest, h1⟩
        · exact ⟨m, List.mem_cons_of_mem s hm, hname⟩
    rw [hrhs]
    by_cases hr : s.name = RESERVED_APP_NAME
    · simp [buildServiceMap, hr]
    · rw [buildServiceMap, if_neg hr]
      by_cases hc : (lookupRoute acc s.name).isSome
      · rw [if_pos hc, ih acc]
        simp [hr]
      · rw [if_neg hc, ih (acc ++ [(s.name, s)])]
        simp [hr]

theorem buildServiceMap_lookup (mods : List AppModule) :
    ∀ acc sm, buildServiceMap mods acc = some sm →
      ∀ n, lookupRoute sm n = orFirst (lookupRoute acc n) (firstWithName mods n) := by
  induction mods with
  | nil =>
    intro acc sm h n
    rw [buildServiceMap] at h
    cases h
    cases hA : lookupRoute acc n <;> simp [orFirst, firstWithName, hA]
  | cons s rest ih =>
    intro acc sm h n
    rw [buildServiceMap] at h
    by_cases hr : s.name = RESERVED_APP_NAME
    · rw [if_pos hr] at h
      cases h
    · rw [if_neg hr] at h
      by_cases hc : (lookupRoute acc s.name).isSome
      · rw [if_pos hc] at h
        rw [ih acc sm h n]
        cases hA : lookupRoute acc n with
        | some y => simp [orFirst]
        | none =>
          simp only [orFirst, firstWithName]
          by_cases hsn : s.name = n
          · rw [hsn] at hc
            rw [hA] at hc
            simp at hc
          · rw [if_neg hsn]
      · rw [if_neg hc] at h
        rw [ih (acc ++ [(s.name, s)]) sm h n, lookupRoute_append]
        cases hA : lookupRoute acc n with
        | some y => simp [orFirst]
        | none =>
          simp only [orFirst, lookupRoute, firstWithName]
          by_cases hsn : s.name = n
          · simp [hsn]
          · simp [hsn]

/-- Claim C7: Node construction keeps, for every module name, only the
    first module registered under that name (later duplicates are never
    routed to), and fails fatally exactly when some registered module
    carries the reserved name "rapido". -/
theorem node_new_registry_spec (db : Db) (mods : List AppModule)
    (auth : Option Authenticator) :
    (Node.new db mods auth = none ↔ ∃ m ∈ mods, m.name = RESERVED_APP_NAME)
    ∧ (∀ node, Node.new db mods auth = some node →
        ∀ route, lookupRoute node.appmodules route = firstWithName mods route) := by
  constructor
  · cases hB : buildServiceMap mods [] with
    | none =>
      have hnew : Node.new db mods auth = none := by simp only [Node.new, hB]
      rw [hnew]
      exact iff_of_true rfl ((buildServiceMap_none_iff mods []).mp hB)
    | some sm =>
      constructor
      · intro h
        simp only [Node.new, hB] at h
        exact Option.noConfusion h
      · intro h
        have hn := (buildServiceMap_none_iff mods []).mpr h
        rw [hn] at hB
        exact Option.noConfusion hB
  · intro node h route
    cases hB : buildServiceMap mods [] with
    | none =>
      simp only [Node.new, hB] at h
      exact Option.noConfusion h
    | some sm =>
      simp only [Node.new, hB] at h
      have hmods : node.appmodules = sm := by
        cases h
        rfl
      have hkey := buildServiceMap_lookup mods [] sm hB route
      rw [hmods, hkey]
      rfl

/-- The empty in-memory database. -/
def dbEmpty : Db := { coreMap := fun _ => none, chainState := none }

/-- A do-nothing module named "a" (bytes [97]). -/
def dupA : AppModule :=
  { name := [97]
    initGenesis := fun v => (Except.ok (), v)
    handle_tx := fun _ v => (Except.ok (), v, []) }

/-- A second module also named "a", registered after dupA. -/
def dupB : AppModule :=
  { name := [97]
    initGenesis := fun v => (Except.ok (), v)
    handle_tx := fun _ v => (Except.error "second", v, []) }

/-- A module carrying the reserved name "rapido". -/
def rapidoMod : AppModule :=
  { name := RESERVED_APP_NAME
    initGenesis := fun v => (Except.ok (), v)
    handle_tx := fun _ v => (Except.ok (), v, []) }

/-- The node Node.new builds from [dupA, dupB]. -/
def nodeDup : Node :=
  { db := dbEmpty
    appmodules := [([97], dupA)]
    authenticator := DefaultAuthenticator
    check_cache := some emptyCache
    deliver_cache := some emptyCache }

/-- Claim C7 (witness): construction with a reserved-name module fails;
    with a duplicate name the first module is the one routed to. -/
theorem node_new_registry_witness :
    Node.new dbEmpty [rapidoMod] none = none
    ∧ lookupRoute nodeDup.appmodules [97] = firstWithName [dupA, dupB] [97] :=
  ⟨(node_new_registry_spec dbEmpty [rapidoMod] none).1.mpr
      ⟨rapidoMod, List.mem_cons_self rapidoMod [], rfl⟩,
   (node_new_registry_spec dbEmpty [dupA, dupB] none).2 nodeDup rfl [97]⟩

/- Query path parser (claim C8). -/

theorem findChar_append_slash (nm rest : List Char)
    (h : nm.contains '/' = false) :
    findChar '/' (nm ++ '/' :: rest) = some nm.length := by
  induction nm with
  | nil => simp [findChar]
  | cons a l ih =>
    rw [List.contains_cons] at h
    rw [Bool.or_eq_false_iff] at h
    have ha : ¬ (a = '/') := by
      intro hE
      rw [hE] at h
      simp at h
    rw [List.cons_append, findChar, if_neg ha, ih h.2]
    simp

/-- Claim C8: the query path parser returns none on the empty string and
    on "/", (name, "/") on a slash-free non-empty string, the split at
    the first slash for "name/rest" with the slash not at index 0, and
    none for any longer string starting with "/". -/
theorem parse_path_spec :
    parse_abci_query_path [] = none
    ∧ parse_abci_query_path ['/'] = none
    ∧ (∀ s : List Char, s ≠ [] → s.contains '/' = false
        → parse_abci_query_path s = some (s, ['/']))
    ∧ (∀ nm rest : List Char, nm ≠ [] → nm.contains '/' = false
        → parse_abci_query_path (nm ++ '/' :: rest) = some (nm, '/' :: rest))
    ∧ (∀ rest : List Char, rest ≠ []
        → parse_abci_query_path ('/' :: rest) = none) := by
  refine ⟨rfl, rfl, ?_, ?_, ?_⟩
  · intro s hne hnc
    rw [parse_abci_query_path,
        if_neg (by simpa using hne),
        if_neg (by rintro rfl; simp at hnc),
        if_pos hnc]
  · intro nm rest hne hnc
    have hlen : 0 < nm.length := List.length_pos.mpr hne
    have hcontains : (nm ++ '/' :: rest).contains '/' = true := by
      have hmem : '/' ∈ nm ++ '/' :: rest :=
        List.mem_append_right nm (List.mem_cons_self '/' rest)
      exact List.elem_eq_true_of_mem hmem
    rw [parse_abci_query_path,
        if_neg (by simp),
        if_neg (by
          intro hE
          have := congrArg List.length hE
          simp at this
          omega),
        if_neg (by simp [hcontains]),
        findChar_append_slash nm rest hnc]
    show (if 0 < nm.length
        then some ((nm ++ '/' :: rest).take nm.length, (nm ++ '/' :: rest).drop nm.length)
        else none) = some (nm, '/' :: rest)
    rw [if_pos hlen, List.take_left, List.drop_left]
  · intro rest hne
    have hcontains : ('/' :: rest).contains '/' = true := by
      exact List.elem_eq_true_of_mem (List.mem_cons_self '/' rest)
    rw [parse_abci_query_path,
        if_neg (by simp),
        if_neg (by
          intro hE
          injection hE with h1 h2
          exact hne h2),
        if_neg (by simp [hcontains])]
    rw [show findChar '/' ('/' :: rest) = some 0 from by simp [findChar]]
    rfl

/-- Claim C8 (witness): the parser cases applied at concrete paths. -/
theorem parse_path_witness :
    parse_abci_query_path ['a'] = some (['a'], ['/'])
    ∧ parse_abci_query_path ['a', '/', 'b'] = some (['a'], ['/', 'b'])
    ∧ parse_abci_query_path ['/', 'b'] = none :=
  ⟨parse_path_spec.2.2.1 ['a'] (by decide) (by decide),
   parse_path_spec.2.2.2.1 ['a'] ['b'] (by decide) (by decide),
   parse_path_spec.2.2.2.2 ['b'] (by decide)⟩

/- Deliver-path failure semantics (claim C1). -/

/-- Is the outcome the error case? -/
def RunOutcome.isErr : RunOutcome → Bool
  | .err _ _ => true
  | _ => false

/-- The deliver-cache entry at a digest after an outcome (none when the
    run panicked or the cache was left taken). -/
def RunOutcome.deliverEntry : RunOutcome → Digest → Option ViewChange
  | .ok _ n, k =>
    match n.deliver_cache with
    | some c => c k
    | none => none
  | .err _ n, k =>
    match n.deliver_cache with
    | some c => c k
    | none => none
  | .panicked, _ => none

/-- A module whose handler writes digest [9] before failing. -/
def failWriter : AppModule :=
  { name := [97]
    initGenesis := fun v => (Except.ok (), v)
    handle_tx := fun _ v => (Except.error "boom", v.put [9] [7], []) }

/-- A transaction addressed to module name "a" (bytes [97]). -/
def txFail : SignedTransaction :=
  { sender := [1], app := [97], msg := [], nonce := 0, signature := [] }

/-- The wire bytes of txFail. -/
def rawFail : Bytes := txFail.encode

/-- A node holding only the failing writer module. -/
def nodeFail : Node :=
  { db := dbEmpty
    appmodules := [([97], failWriter)]
    authenticator := DefaultAuthenticator
    check_cache := some emptyCache
    deliver_cache := some emptyCache }

/-- Claim C1 (counterexample): delivering a transaction whose handler
    writes digest [9] and then fails leaves that write in the execution
    cache: the store write of the failing handler is present, not
    absent as the claim states. -/
theorem deliver_fail_residue_counterexample :
    (run_tx false rawFail nodeFail).isErr = true
    ∧ (run_tx false rawFail nodeFail).deliverEntry [9] = some (ViewChange.Add [7]) := by
  exact ⟨rfl, rfl⟩

/-- Claim C1 (amended): when the module handler fails during deliver_tx,
    the harness keeps the mutated cache anyway: the execution cache
    afterwards is exactly the failing handler's view, with all its store
    writes, after the authenticator's nonce advancement; those writes
    stay visible to subsequent reads within the block. -/
theorem run_tx_deliver_err_keeps_writes (node : Node) (raw : Bytes)
    (tx : SignedTransaction) (app : AppModule) (dc : Cache)
    (m : String) (v2 : StoreView) (events : List Event) (v3 : StoreView)
    (hdec : SignedTransaction.decode raw = some tx)
    (happ : lookupRoute node.appmodules tx.app = some app)
    (hdc : node.deliver_cache = some dc)
    (hh : app.handle_tx tx.into_context { cache := dc, snap := node.db.coreMap }
        = (Except.error m, v2, events))
    (hn : node.authenticator.increment_nonce tx v2 = (Except.ok (), v3)) :
    run_tx false raw node
      = RunOutcome.err (TxErr.handlerFail m)
          { node with deliver_cache := some v3.cache } := by
  simp only [run_tx, hdec, happ, hdc, hh, hn, Bool.false_eq_true, if_false]

/-- Claim C1 (witness): the amended theorem applied at the concrete
    failing-writer node. -/
theorem run_tx_deliver_err_keeps_writes_witness :
    run_tx false rawFail nodeFail
      = RunOutcome.err (TxErr.handlerFail "boom")
          { nodeFail with
            deliver_cache := some (Cache.insert emptyCache [9] (ViewChange.Add [7])) } :=
  run_tx_deliver_err_keeps_writes nodeFail rawFail txFail failWriter emptyCache
    "boom" (StoreView.put { cache := emptyCache, snap := nodeFail.db.coreMap } [9] [7]) []
    (StoreView.put { cache := emptyCache, snap := nodeFail.db.coreMap } [9] [7])
    rfl rfl rfl rfl rfl

/- Genesis initialisation (claim C2). -/

/-- The core map at a digest after an optional node (none on panic). -/
def dbAt : Option Node → Digest → Option Bytes
  | some n, k => n.db.coreMap k
  | none, _ => none

/-- The deliver-cache entry at a digest in an optional node. -/
def deliverCacheAt : Option Node → Digest → Option ViewChange
  | some n, k =>
    match n.deliver_cache with
    | some c => c k
    | none => none
  | none, _ => none

/-- A module writing digest [3] during genesis initialisation. -/
def genesisWriter : AppModule :=
  { name := [98]
    initGenesis := fun v => (Except.ok (), v.put [3] [4])
    handle_tx := fun _ v => (Except.ok (), v, []) }

/-- A node holding only the genesis writer. -/
def nodeGenesis : Node :=
  { db := dbEmpty
    appmodules := [([98], genesisWriter)]
    authenticator := DefaultAuthenticator
    check_cache := some emptyCache
    deliver_cache := some emptyCache }

/-- Claim C2 (counterexample): after init_chain the underlying database
    already holds the genesis write at digest [3] (it was none before),
    and the execution cache is empty rather than holding that write: the
    persistent store is modified by init_chain itself, not first by
    commit. -/
theorem init_chain_counterexample :
    nodeGenesis.db.coreMap [3] = none
    ∧ dbAt (Node.init_chain nodeGenesis) [3] = some [4]
    ∧ deliverCacheAt (Node.init_chain nodeGenesis) [3] = none := by
  exact ⟨rfl, rfl, rfl⟩

/-- Claim C2 (amended): init_chain runs the module initializers over the
    execution cache, then immediately commits those genesis writes into
    a fork and merges it into the underlying database, resetting the
    execution cache to empty; the chain state entry is left untouched. -/
theorem init_chain_commits (node : Node) (dc : Cache) (v2 : StoreView)
    (hdc : node.deliver_cache = some dc)
    (hins : runInits node.appmodules { cache := dc, snap := node.db.coreMap } = some v2) :
    ∃ node2, Node.init_chain node = some node2
      ∧ node2.db.coreMap = applyCache v2.cache node.db.coreMap
      ∧ node2.deliver_cache = some emptyCache
      ∧ node2.db.chainState = node.db.chainState := by
  have h : Node.init_chain node
      = some { node with
               db := { node.db with coreMap := applyCache v2.cache node.db.coreMap }
               deliver_cache := some emptyCache } := by
    simp only [Node.init_chain, hdc, hins]
  exact ⟨_, h, rfl, rfl, rfl⟩

/-- Claim C2 (witness): the amended theorem applied at the genesis
    writer node. -/
theorem init_chain_commits_witness :
    ∃ node2, Node.init_chain nodeGenesis = some node2
      ∧ node2.db.coreMap
          = applyCache (Cache.insert emptyCache [3] (ViewChange.Add [4]))
              nodeGenesis.db.coreMap
      ∧ node2.deliver_cache = some emptyCache
      ∧ node2.db.chainState = nodeGenesis.db.chainState :=
  init_chain_commits nodeGenesis emptyCache
    { cache := Cache.insert emptyCache [3] (ViewChange.Add [4])
      snap := nodeGenesis.db.coreMap }
    rfl rfl

/- Commit protocol (claim C5). -/

/-- Claim C5: commit applies the execution cache to a fork of the store,
    writes the chain state (previous height + 1, new apphash) on that
    same fork, merges it, resets both staging caches to empty and
    returns the apphash, which is the aggregator hash of the merged
    map. -/
theorem commit_spec (agg : (Digest → Option Bytes) → Bytes) (node : Node)
    (dc : Cache) (hdc : node.deliver_cache = some dc) :
    ∃ apphash node2,
      Node.commit agg node = some (apphash, node2)
      ∧ apphash = agg (applyCache dc node.db.coreMap)
      ∧ node2.db.coreMap = applyCache dc node.db.coreMap
      ∧ node2.db.chainState
          = some { height := (match node.db.chainState with
                              | some s => s
                              | none => ChainState.default).height + 1
                   apphash := apphash }
      ∧ node2.check_cache = some emptyCache
      ∧ node2.deliver_cache = some emptyCache := by
  have h : Node.commit agg node
      = some (agg (applyCache dc node.db.coreMap),
          { node with
            db := { coreMap := applyCache dc node.db.coreMap
                    chainState := some { height := (match node.db.chainState with
                                                    | some s => s
                                                    | none => ChainState.default).height + 1
                                         apphash := agg (applyCache dc node.db.coreMap) } }
            deliver_cache := some emptyCache
            check_cache := some emptyCache }) := by
    simp only [Node.commit, hdc, Node.update_state]
  exact ⟨_, _, h, rfl, rfl, rfl, rfl, rfl⟩

/-- A concrete aggregator: the value stored at digest [1], or empty. -/
def aggW : (Digest → Option Bytes) → Bytes :=
  fun m =>
    match m [1] with
    | some v => v
    | none => []

/-- The cache committed in the commit witness. -/
def dcW : Cache := Cache.insert emptyCache [1] (ViewChange.Add [7])

/-- A node about to commit one pending write. -/
def nodeCommitW : Node :=
  { db := dbEmpty
    appmodules := []
    authenticator := DefaultAuthenticator
    check_cache := some emptyCache
    deliver_cache := some dcW }

/-- Claim C5 (witness): the commit theorem applied at nodeCommitW. -/
theorem commit_spec_witness :
    ∃ apphash node2,
      Node.commit aggW nodeCommitW = some (apphash, node2)
      ∧ apphash = aggW (applyCache dcW nodeCommitW.db.coreMap)
      ∧ node2.db.coreMap = applyCache dcW nodeCommitW.db.coreMap
      ∧ node2.db.chainState
          = some { height := (match nodeCommitW.db.chainState with
                              | some s => s
                              | none => ChainState.default).height + 1
                   apphash := apphash }
      ∧ node2.check_cache = some emptyCache
      ∧ node2.deliver_cache = some emptyCache :=
  commit_spec aggW nodeCommitW dcW rfl

/- Taken-cache poisoning on nonce failure (claim C10). -/

/-- Claim C10: if increment_nonce fails during check_tx (respectively
    deliver_tx), run_tx returns the ensure! error with the taken cache
    never restored, leaving the node's check (respectively deliver)
    cache option empty; the next check_tx (respectively deliver_tx or
    commit) then panics unwrapping the absent cache instead of
    returning an error code. -/
theorem inc_nonce_err_poisons_cache :
    (∀ (node : Node) (raw : Bytes) (tx : SignedTransaction) (app : AppModule)
        (cc : Cache) (e : String) (v2 : StoreView),
      SignedTransaction.decode raw = some tx →
      lookupRoute node.appmodules tx.app = some app →
      node.check_cache = some cc →
      node.authenticator.increment_nonce tx { cache := cc, snap := node.db.coreMap }
          = (Except.error e, v2) →
      run_tx true raw node
          = RunOutcome.err TxErr.checkIncNonce { node with check_cache := none }
        ∧ run_tx true raw { node with check_cache := none } = RunOutcome.panicked)
    ∧ (∀ (node : Node) (raw : Bytes) (tx : SignedTransaction) (app : AppModule)
        (dc : Cache) (r : Except String Unit) (v2 : StoreView) (events : List Event)
        (e : String) (v3 : StoreView) (agg : (Digest → Option Bytes) → Bytes),
      SignedTransaction.decode raw = some tx →
      lookupRoute node.appmodules tx.app = some app →
      node.deliver_cache = some dc →
      app.handle_tx tx.into_context { cache := dc, snap := node.db.coreMap }
          = (r, v2, events) →
      node.authenticator.increment_nonce tx v2 = (Except.error e, v3) →
      run_tx false raw node
          = RunOutcome.err TxErr.deliverIncNonce { node with deliver_cache := none }
        ∧ run_tx false raw { node with deliver_cache := none } = RunOutcome.panicked
        ∧ Node.commit agg { node with deliver_cache := none } = none) := by
  constructor
  · intro node raw tx app cc e v2 hdec happ hcc hn
    constructor
    · simp only [run_tx, hdec, happ, hcc, hn, if_true]
    · simp only [run_tx, hdec, happ, if_true]
  · intro node raw tx app dc r v2 events e v3 agg hdec happ hdc hh hn
    refine ⟨?_, ?_, ?_⟩
    · simp only [run_tx, hdec, happ, hdc, hh, hn, Bool.false_eq_true, if_false]
    · simp only [run_tx, hdec, happ, Bool.false_eq_true, if_false]
    · simp only [Node.commit]

/-- An authenticator whose increment_nonce always fails. -/
def failNonceAuth : Authenticator :=
  { validate := fun _ _ => Except.ok ()
    increment_nonce := fun _ v => (Except.error "nonce", v) }

/-- A module named "a" whose handler succeeds without writing. -/
def okModule : AppModule :=
  { name := [97]
    initGenesis := fun v => (Except.ok (), v)
    handle_tx := fun _ v => (Except.ok (), v, []) }

/-- A node using the failing-nonce authenticator. -/
def nodeNonce : Node :=
  { db := dbEmpty
    appmodules := [([97], okModule)]
    authenticator := failNonceAuth
    check_cache := some emptyCache
    deliver_cache := some emptyCache }

/-- Claim C10 (witness): both parts applied at the failing-nonce node. -/
theorem inc_nonce_err_poisons_cache_witness :
    (run_tx true rawFail nodeNonce
        = RunOutcome.err TxErr.checkIncNonce { nodeNonce with check_cache := none }
      ∧ run_tx true rawFail { nodeNonce with check_cache := none }
          = RunOutcome.panicked)
    ∧ (run_tx false rawFail nodeNonce
        = RunOutcome.err TxErr.deliverIncNonce { nodeNonce with deliver_cache := none }
      ∧ run_tx false rawFail { nodeNonce with deliver_cache := none }
          = RunOutcome.panicked
      ∧ Node.commit aggW { nodeNonce with deliver_cache := none } = none) :=
  ⟨inc_nonce_err_poisons_cache.1 nodeNonce rawFail txFail okModule emptyCache
      "nonce" { cache := emptyCache, snap := nodeNonce.db.coreMap } rfl rfl rfl rfl,
   inc_nonce_err_poisons_cache.2 nodeNonce rawFail txFail okModule emptyCache
      (Except.ok ()) { cache := emptyCache, snap := nodeNonce.db.coreMap } []
      "nonce" { cache := emptyCache, snap := nodeNonce.db.coreMap } aggW
      rfl rfl rfl rfl rfl⟩

end Rapido
